import Mathlib

/-!
Verification of the closed-loop motor-control subsystem
(src/src/ClosedLoop/ClosedLoop.cpp) against its specification.

Modelling conventions:
* C/C++ `float`/`double` values are modelled as rationals (`ℚ`).  All
  floating-point computations the verified claims depend on are exact at the
  relevant inputs (comparisons of sums/products that the code itself computes
  with the same expression), so the rational model is faithful.
* Machine integers are modelled as `ℕ`/`ℤ` with explicit `% 2^w` where a
  conversion to a narrower unsigned type occurs.
* The cooperative tasks are modelled as explicit state-passing functions; the
  hardware (encoder, motor driver) is modelled as an oracle for the measured
  position, since it is external to the subsystem.
-/

namespace ClosedLoop

/-! ### PID integral term (ClosedLoop::ControlMotorCurrents, lines 636-641)

The control loop updates the integral accumulator by
`if (abs(PIDITerm + Ki * currentError) < 512) { PIDITerm += Ki * currentError; }`.
-/

/-- One anti-windup-guarded update of `PIDITerm` by `Ki * error`, exactly as in
`ControlMotorCurrents`: the increment is applied only when the resulting
magnitude stays below 512, and dropped otherwise. -/
def pidITermUpdate (Ki I e : ℚ) : ℚ :=
  if |I + Ki * e| < 512 then I + Ki * e else I

/-- The integral accumulator after feeding a whole sequence of error values to
the control loop, starting from accumulator value `I0`. -/
def pidITermRun (Ki I0 : ℚ) (errs : List ℚ) : ℚ :=
  errs.foldl (fun I e => pidITermUpdate Ki I e) I0

/-! ### Commutation phase computation (ClosedLoop::ControlMotorCurrents, lines 643-665)

```
PIDControlSignal = (int16_t) constrain<float>(sumOfTerms, -255, 255);
phaseShift = (4 * PIDControlSignal);
desiredStepPhase = stepPhase + phaseShift + ((stepPhase < -phaseShift) * 4095);
desiredStepPhase = desiredStepPhase % 4096;
```
`stepPhase` and `desiredStepPhase` are `uint16_t`, `phaseShift` is `int16_t`;
the arithmetic on the right-hand sides is done in (promoted) `int`, and the
assignment to the `uint16_t` variable reduces the value modulo 2^16. -/

/-- The phase shift derived from the clamped PID control signal (line 651). -/
def phaseShiftOf (signal : ℤ) : ℤ := 4 * signal

/-- The raw `int` sum `stepPhase + phaseShift + ((stepPhase < -phaseShift) * 4095)`
of line 664, before it is assigned to the `uint16_t` variable. -/
def rawDesiredSum (stepPhase phaseShift : ℤ) : ℤ :=
  stepPhase + phaseShift + (if stepPhase < -phaseShift then 4095 else 0)

/-- The `desiredStepPhase` computed from `stepPhase` and `phaseShift`
(lines 664-665), including the wrap-correction of +4095 applied before the
modulo when the raw sum would be negative, the implicit conversion of the
`int` sum to `uint16_t` (reduction mod 2^16), and the final `% 4096`. -/
def desiredStepPhaseOf (stepPhase phaseShift : ℤ) : ℤ :=
  (rawDesiredSum stepPhase phaseShift % 65536) % 4096

/-! ## Theorems -/

/-- C1: for every sequence of error values fed to the PID control loop, the
magnitude of the integral accumulator `PIDITerm` never reaches the anti-windup
ceiling 512: starting from any accumulator value of magnitude below 512 (it is
initialised to 0), `|PIDITerm| < 512` is an invariant of the guarded update,
however many iterations are run and whatever the signs of the errors. -/
theorem pidITerm_never_reaches_ceiling (Ki I0 : ℚ) (errs : List ℚ)
    (h : |I0| < 512) : |pidITermRun Ki I0 errs| < 512 := by
  induction errs generalizing I0 with
  | nil => simpa [pidITermRun] using h
  | cons e rest ih =>
      have hstep : |pidITermUpdate Ki I0 e| < 512 := by
        unfold pidITermUpdate
        split_ifs with hg
        · exact hg
        · exact h
      simpa [pidITermRun, List.foldl_cons] using ih (pidITermUpdate Ki I0 e) hstep

/-- Witness for C1 at a concrete input: with `Ki = 1`, a start value of 0 and a
single error of 600 (whose update is dropped by the guard), the accumulator
magnitude stays below 512. -/
theorem pidITerm_never_reaches_ceiling_witness :
    |pidITermRun 1 0 [600]| < 512 :=
  pidITerm_never_reaches_ceiling 1 0 [600] (by norm_num)

/-- C2: for every `stepPhase` in [0, 4095] and every clamped control signal in
[-255, 255] (hence `phaseShift = 4 * signal` in [-1020, 1020], including
negative values), the wrap-correction added before the modulo guarantees that
the value reduced mod 4096 is non-negative (the raw sum entering the modulo is
already non-negative, so no unsigned wrap-around occurs), and the computed
`desiredStepPhase` lies in [0, 4096). -/
theorem desiredStepPhase_in_range (signal stepPhase : ℤ)
    (hs1 : -255 ≤ signal) (hs2 : signal ≤ 255)
    (hp1 : 0 ≤ stepPhase) (hp2 : stepPhase ≤ 4095) :
    0 ≤ rawDesiredSum stepPhase (phaseShiftOf signal) ∧
      0 ≤ desiredStepPhaseOf stepPhase (phaseShiftOf signal) ∧
      desiredStepPhaseOf stepPhase (phaseShiftOf signal) < 4096 := by
  unfold desiredStepPhaseOf rawDesiredSum phaseShiftOf
  split_ifs with hneg <;> refine ⟨by omega, by omega, by omega⟩

/-- Witness for C2 at a concrete input: the most negative phase shift (signal
-255, shift -1020) together with `stepPhase = 0` triggers the wrap-correction
and still lands in [0, 4096). -/
theorem desiredStepPhase_in_range_witness :
    0 ≤ rawDesiredSum 0 (phaseShiftOf (-255)) ∧
      0 ≤ desiredStepPhaseOf 0 (phaseShiftOf (-255)) ∧
      desiredStepPhaseOf 0 (phaseShiftOf (-255)) < 4096 :=
  desiredStepPhase_in_range (-255) 0 (by norm_num) (by norm_num) (by norm_num) (by norm_num)

/-! ### Polarity detection manoeuvre (ClosedLoop::TuningLoop, lines 804-849)

For each of the 4 coil-polarity combinations `coilPhase` in 0..3, the code
sweeps `desiredStepPhase` through 0, 256, ..., 3840 (16 commanded phases),
measures `stepPhase` after each command, accumulates
`min(distance1, distance2)` into `totalError`, and keeps the combination with
the strictly smallest total, first combination winning ties:
```
if (coilPhase == 0 || totalError < correctCoilPhaseError) { ... }
```
Finally `coilAPolarity = correctCoilPhase & 0x2; coilBPolarity = correctCoilPhase & 0x1;`.
The measured `stepPhase` at each commanded phase is the plant's response and
is modelled as an oracle `measured : ℕ → ℕ → ℤ` (combination index, sweep
step index). -/

/-- The circular distance between a measured `stepPhase` and the commanded
`desiredStepPhase`, taking the shorter of the direct distance and the
wrap-around distance (lines 833-835). -/
def circularPhaseDist (stepPhase desired : ℤ) : ℤ :=
  min |stepPhase - desired| (4095 - max stepPhase desired + min stepPhase desired)

/-- The accumulated `totalError` of one coil-polarity combination over the 16
commanded phases 0, 256, ..., 3840 (lines 810-836), where `measured k` is the
`stepPhase` observed after commanding phase `256 * k`. -/
def polarityTotalError (measured : ℕ → ℤ) : ℤ :=
  (List.range 16).foldl (fun acc k => acc + circularPhaseDist (measured k) (256 * k)) 0

/-- The `correctCoilPhase` selected by the loop over the four combinations
(lines 809-842): combination 0 is taken first, and a later combination
replaces the current best only when its total error is strictly smaller. -/
def selectCoilPhase (err : ℕ → ℤ) : ℕ :=
  ((List.range 4).foldl
    (fun best c => if c = 0 ∨ err c < best.2 then (c, err c) else best) (0, 0)).1

/-- The coil polarities written after the manoeuvre (lines 844-845):
`coilAPolarity = correctCoilPhase & 0x2`, `coilBPolarity = correctCoilPhase & 0x1`. -/
def detectedPolarities (err : ℕ → ℤ) : Bool × Bool :=
  (decide (selectCoilPhase err &&& 2 ≠ 0), decide (selectCoilPhase err &&& 1 ≠ 0))

/-- C5: given the accumulated circular phase errors `err c` of the 4
coil-polarity combinations (for the plant trace `measured c` of combination
`c` this is `polarityTotalError (measured c)`, the sum over the 16 commanded
phases of the shorter of the direct and wrap-around distance), the manoeuvre
selects a combination whose accumulated error is minimal, ties resolving to
the lowest-indexed (first-seen, `coilPhase == 0` first) combination, and
writes that combination's two sign bits to `coilAPolarity` and
`coilBPolarity`. -/
theorem polarity_detection_selects_min (err : ℕ → ℤ) (i : ℕ) (hi : i < 4) :
    selectCoilPhase err < 4 ∧
      err (selectCoilPhase err) ≤ err i ∧
      (err i = err (selectCoilPhase err) → selectCoilPhase err ≤ i) ∧
      detectedPolarities err
        = (decide (selectCoilPhase err &&& 2 ≠ 0), decide (selectCoilPhase err &&& 1 ≠ 0)) := by
  have h4 : List.range 4 = [0, 1, 2, 3] := by decide
  refine ⟨?_, ?_, ?_, rfl⟩ <;>
  · simp only [selectCoilPhase, h4, List.foldl_cons, List.foldl_nil]
    interval_cases i <;> split_ifs <;> simp_all <;> omega

/-- Witness for C5 at a concrete input: with accumulated errors (7, 3, 3, 9)
for the four combinations, combination 1 (the lowest-indexed minimum) is
selected, and at the tied index 2 the tie-break picks the lower index. -/
theorem polarity_detection_selects_min_witness :
    selectCoilPhase (fun c => [7, 3, 3, 9].getD c 0) < 4 ∧
      (fun c => ([7, 3, 3, 9].getD c 0 : ℤ)) (selectCoilPhase (fun c => [7, 3, 3, 9].getD c 0))
        ≤ (fun c => ([7, 3, 3, 9].getD c 0 : ℤ)) 2 ∧
      ((fun c => ([7, 3, 3, 9].getD c 0 : ℤ)) 2
          = (fun c => ([7, 3, 3, 9].getD c 0 : ℤ)) (selectCoilPhase (fun c => [7, 3, 3, 9].getD c 0))
        → selectCoilPhase (fun c => [7, 3, 3, 9].getD c 0) ≤ 2) ∧
      detectedPolarities (fun c => [7, 3, 3, 9].getD c 0)
        = (decide (selectCoilPhase (fun c => [7, 3, 3, 9].getD c 0) &&& 2 ≠ 0),
           decide (selectCoilPhase (fun c => [7, 3, 3, 9].getD c 0) &&& 1 ≠ 0)) :=
  polarity_detection_selects_min (fun c => [7, 3, 3, 9].getD c 0) 2 (by norm_num)

/-! ### Configuration command (ClosedLoop::ProcessM569Point1, lines 359-474)

The command pulls each supplied parameter into a temporary (defaulting to the
current value), reports the current configuration when nothing was supplied,
validates the temporaries, and only after all validations pass writes them
back to the configuration state.  `EncoderType::NumValues` and
`TUNE_ERR_NOT_PERFORMED_MINIMAL_TUNE` are declared outside the provided
sources, so they appear as parameters `numValues` and `minimalTuneMask`. -/

/-- Result of a GCode-style command (GCodeResult). -/
inductive GCodeResult where
  | ok
  | warning
  | error
deriving DecidableEq

/-- The configuration state read and written by `ProcessM569Point1`: the
file-scope variables of ClosedLoop.cpp it touches.  The active encoder
instance is abstracted by the stored encoder type. -/
structure ConfigState where
  encoderType : ℕ
  encoderCountPerStep : ℚ
  Kp : ℚ
  Ki : ℚ
  Kd : ℚ
  coilAPolarity : Bool
  coilBPolarity : Bool
  errorThreshold0 : ℚ
  errorThreshold1 : ℚ
  tuningError : ℕ
deriving DecidableEq

/-- The parameters a M569.1 message may supply (`none` = not present):
T encoder type, C counts per step, R/I/D the PID gains, E the two error
thresholds, L the coil polarity. -/
structure M569Point1Params where
  T : Option ℕ
  C : Option ℚ
  R : Option ℚ
  I : Option ℚ
  D : Option ℚ
  E : Option (ℚ × ℚ)
  L : Option ℕ
deriving DecidableEq

/-- `ClosedLoop::ProcessM569Point1` (lines 359-474): defaulting of the
temporaries, the no-parameter report, the validation of encoder type, error
thresholds and coil polarity, and the state update performed only when all
validations pass. -/
def coilPolarityBits (st : ConfigState) : ℕ :=
  (if st.coilAPolarity then 2 else 0) + (if st.coilBPolarity then 1 else 0)

def processM569Point1 (numValues minimalTuneMask : ℕ) (st : ConfigState)
    (p : M569Point1Params) : GCodeResult × ConfigState :=
  if p.T = none ∧ p.C = none ∧ p.R = none ∧ p.I = none ∧ p.D = none ∧ p.E = none ∧ p.L = none then
    (GCodeResult.ok, st)
  else if numValues < p.T.getD st.encoderType then
    (GCodeResult.error, st)
  else if p.E.isSome ∧ (p.E.getD (0, 0)).1 < 0 then
    (GCodeResult.error, st)
  else if p.E.isSome ∧ (p.E.getD (0, 0)).2 < 0 then
    (GCodeResult.error, st)
  else if 3 < p.L.getD (coilPolarityBits st) then
    (GCodeResult.error, st)
  else
    let tempCoilPolarity := p.L.getD (coilPolarityBits st)
    let st1 : ConfigState :=
      { st with
        encoderCountPerStep := p.C.getD st.encoderCountPerStep
        Kp := p.R.getD st.Kp
        Ki := p.I.getD st.Ki
        Kd := p.D.getD st.Kd
        coilAPolarity := decide (tempCoilPolarity &&& 2 ≠ 0)
        coilBPolarity := decide (tempCoilPolarity &&& 1 ≠ 0) }
    let st2 : ConfigState :=
      match p.E with
      | some e => { st1 with errorThreshold0 := e.1, errorThreshold1 := e.2 }
      | none => st1
    let st3 : ConfigState :=
      if p.T.isSome ∨ p.C.isSome then
        { st2 with tuningError := st2.tuningError ||| minimalTuneMask }
      else st2
    let st4 : ConfigState :=
      if p.T.isSome then { st3 with encoderType := p.T.getD st.encoderType } else st3
    (GCodeResult.ok, st4)

/-- C6: whenever a supplied M569.1 parameter value is invalid — an encoder
type beyond the accepted range, a negative error threshold, or a coil
polarity greater than 3 — the command returns an error and mutates none of
the configuration state: encoder count per step, Kp, Ki, Kd, coil
polarities, error thresholds, encoder instance and tuning-error flags all
keep their prior values. -/
theorem m569Point1_invalid_no_mutation (numValues minimalTuneMask : ℕ)
    (st : ConfigState) (p : M569Point1Params)
    (h : (∃ t, p.T = some t ∧ numValues < t) ∨
         (∃ e, p.E = some e ∧ (e.1 < 0 ∨ e.2 < 0)) ∨
         (∃ l, p.L = some l ∧ 3 < l)) :
    processM569Point1 numValues minimalTuneMask st p = (GCodeResult.error, st) := by
  have hcontra : numValues < p.T.getD st.encoderType ∨
      (p.E.isSome ∧ (p.E.getD (0, 0)).1 < 0) ∨
      (p.E.isSome ∧ (p.E.getD (0, 0)).2 < 0) ∨
      3 < p.L.getD (coilPolarityBits st) := by
    rcases h with ⟨t, ht, htv⟩ | ⟨e, he, hev⟩ | ⟨l, hl, hlv⟩
    · exact Or.inl (by simp [ht, htv])
    · rcases hev with hev | hev
      · exact Or.inr (Or.inl ⟨by simp [he], by simp [he, hev]⟩)
      · exact Or.inr (Or.inr (Or.inl ⟨by simp [he], by simp [he, hev]⟩))
    · exact Or.inr (Or.inr (Or.inr (by simp [hl, hlv])))
  unfold processM569Point1
  split_ifs with h0 h1 h2 h3 h4
  · exfalso
    rcases h with ⟨t, ht, _⟩ | ⟨e, he, _⟩ | ⟨l, hl, _⟩ <;> simp_all
  · rfl
  · rfl
  · rfl
  · rfl
  all_goals exfalso
  all_goals rcases hcontra with hc | hcc | hcc | hc
  all_goals first
  | exact h1 hc
  | exact h2 hcc
  | exact h3 hcc
  | exact h4 hc

/-- Witness for C6 at a concrete input: supplying only L=5 (an invalid coil
polarity) returns an error and leaves the configuration unchanged. -/
theorem m569Point1_invalid_no_mutation_witness :
    processM569Point1 5 1 ⟨1, 4, 100, 1 / 100, 10, true, false, 0, 0, 0⟩
        ⟨none, none, none, none, none, none, some 5⟩
      = (GCodeResult.error, ⟨1, 4, 100, 1 / 100, 10, true, false, 0, 0, 0⟩) :=
  m569Point1_invalid_no_mutation 5 1 ⟨1, 4, 100, 1 / 100, 10, true, false, 0, 0, 0⟩
    ⟨none, none, none, none, none, none, some 5⟩
    (Or.inr (Or.inr ⟨5, rfl, by norm_num⟩))

/-! ### Data collection (ClosedLoop::StartDataCollection, lines 1089-1138;
ClosedLoop::CollectSample, lines 573-604; ClosedLoop::Spin, lines 559-571)

`StartDataCollection` validates the request and sets up the recording
variables.  The capacity pre-check
`maxSamples = (CLOSED_LOOP_DATA_BUFFER_SIZE * 12) / variableCount;
 if (msg.numSamples > maxSamples) ...` is performed ONLY when `msg.rate == 0`.
For an accepted request the sample rate is converted by
`rateRequested = (1000.0 / msg.rate) / portTICK_PERIOD_MS;` and truncated to
`uint16_t`.  For `msg.rate >= 1` the conversion is well defined and, because
the quotient is far from every integer relative to double rounding error,
it equals the rational floor `1000 / (rate * portTick)` computed in ℕ.  For
`msg.rate == 0` the double division yields IEEE +infinity and the conversion
of an out-of-range value to `uint16_t` is undefined behaviour in C++, so the
model stores `none` for it (see the C8 discussion in the results).

`CLOSED_LOOP_DATA_BUFFER_SIZE` is 50 on the EXP1HCE build and 2000 on the
EXP1HCL build; it and `FULL_TUNE` (declared in the header, outside the
provided sources) are parameters.  `Spin` (line 561) calls `CollectSample`
on every tick while `collectingData && rateRequested == 0`. -/

/-- The body of the bit-counting loop, with explicit fuel so that the
definition is structurally recursive and evaluates inside the kernel.  Any
fuel of at least `n` iterations computes the exact bit count of `n` (the
loop halves its argument each iteration, so it runs at most `n` times). -/
def countBitsGo : ℕ → ℕ → ℕ
  | 0, _ => 0
  | fuel + 1, n => if n = 0 then 0 else n % 2 + countBitsGo fuel (n / 2)

/-- The bit-counting loop used by `StartDataCollection` (lines 1106-1111),
`CollectSample` (lines 591-596) and `DataTransmissionLoop` (lines 1150-1155):
`while (tmpFilter != 0) { variableCount += tmpFilter & 0x1; tmpFilter >>= 1; }`. -/
def countBits (n : ℕ) : ℕ := countBitsGo n n

/-- The bit-count loop returns 0 on a zero argument for any fuel. -/
theorem countBitsGo_zero (fuel : ℕ) : countBitsGo fuel 0 = 0 := by
  cases fuel <;> simp [countBitsGo]

/-- The fuel is irrelevant as long as it is at least the argument. -/
theorem countBitsGo_congr :
    ∀ fuel fuel' n, n ≤ fuel → n ≤ fuel' → countBitsGo fuel n = countBitsGo fuel' n := by
  intro fuel
  induction fuel with
  | zero =>
      intro fuel' n hn _
      have : n = 0 := Nat.le_zero.1 hn
      subst this
      simp [countBitsGo, countBitsGo_zero]
  | succ f ih =>
      intro fuel' n hn hn'
      rcases Nat.eq_zero_or_pos n with h0 | h0
      · subst h0; simp [countBitsGo_zero]
      · obtain ⟨f', rfl⟩ : ∃ f', fuel' = f' + 1 := ⟨fuel' - 1, by omega⟩
        have hne : n ≠ 0 := Nat.pos_iff_ne_zero.1 h0
        simp only [countBitsGo, if_neg hne]
        have hhalf : n / 2 ≤ f := by omega
        have hhalf' : n / 2 ≤ f' := by omega
        exact congrArg (fun x => n % 2 + x) (ih f' (n / 2) hhalf hhalf')

/-- Unfolding equation of the bit-counting loop in terms of `countBits`
itself: one iteration adds the lowest bit and continues on the upper bits. -/
theorem countBits_step (n : ℕ) : countBits n = n % 2 + countBits (n / 2) := by
  rcases Nat.eq_zero_or_pos n with h0 | h0
  · subst h0; simp [countBits, countBitsGo_zero]
  · have hne : n ≠ 0 := Nat.pos_iff_ne_zero.1 h0
    obtain ⟨m, rfl⟩ : ∃ m, n = m + 1 := ⟨n - 1, by omega⟩
    unfold countBits
    simp only [countBitsGo, if_neg hne]
    exact congrArg (fun x => (m + 1) % 2 + x)
      (countBitsGo_congr m ((m + 1) / 2) ((m + 1) / 2) (by omega) (le_refl _))

/-- The collection request state stored by `StartDataCollection`
(`collectingData`, `rateRequested`, `filterRequested`, `samplesRequested`,
the tuning bitmask that `tuning |= msg.movement` feeds, and `modeRequested`).
`rateRequested = none` models the undefined result of converting an
out-of-range double to `uint16_t` (the `msg.rate == 0` case). -/
structure CollectionState where
  collectingData : Bool
  rateRequested : Option ℕ
  filterRequested : ℕ
  samplesRequested : ℕ
  tuningBits : ℕ
  modeRequested : ℕ
deriving DecidableEq

/-- The fields of `CanMessageStartClosedLoopDataCollection` that
`StartDataCollection` reads. -/
structure StartCollectionMsg where
  deviceNumber : ℕ
  rate : ℕ
  filter : ℕ
  numSamples : ℕ
  mode : ℕ
  movement : ℕ
deriving DecidableEq

/-- The tick conversion `(1000.0 / msg.rate) / portTICK_PERIOD_MS` truncated
to `uint16_t` (line 1129): for a nonzero rate this is the floor of the exact
quotient; for rate 0 the C++ conversion is undefined behaviour (IEEE
+infinity cast to an unsigned integer), modelled as `none`. -/
def rateConvert (portTick rate : ℕ) : Option ℕ :=
  if rate = 0 then none else some (1000 / (rate * portTick))

/-- `ClosedLoop::StartDataCollection` (lines 1089-1138): the device/encoder
check, the already-collecting check, the capacity pre-check performed only
when `msg.rate == 0`, the movement-index check, and the setup of the
recording variables on acceptance. -/
def startDataCollection (bufSize fullTune portTick : ℕ) (hasEncoder : Bool)
    (st : CollectionState) (msg : StartCollectionMsg) : GCodeResult × CollectionState :=
  if msg.deviceNumber ≠ 0 ∨ hasEncoder = false then
    (GCodeResult.error, st)
  else if st.collectingData then
    (GCodeResult.error, st)
  else if msg.rate = 0 ∧ msg.numSamples > bufSize * 12 / countBits msg.filter then
    (GCodeResult.error, st)
  else if msg.movement > fullTune then
    (GCodeResult.error, st)
  else
    (GCodeResult.ok,
      { collectingData := true
        rateRequested := rateConvert portTick msg.rate
        filterRequested := msg.filter
        samplesRequested := msg.numSamples
        tuningBits := st.tuningBits ||| msg.movement
        modeRequested := msg.mode })

/-- The guard of line 561 of `Spin`:
`if (collectingData && rateRequested == 0) {CollectSample();}` — sampling is
routed through the per-tick path exactly when this holds. -/
def spinTakesSample (st : CollectionState) : Bool :=
  st.collectingData && (st.rateRequested == some 0)

/-- The buffer indices written by repeated per-tick `CollectSample` calls
(lines 575-587): each call writes `wc` consecutive floats starting at the
current write pointer (`wc` = the number of selected variables), then stops
collection once the pointer has reached `target = samplesRequested *
variableCount` (line 598).  `fuel` bounds the number of ticks modelled. -/
def collectIndices (wc target : ℕ) : ℕ → ℕ → List ℕ
  | 0, _ => []
  | fuel + 1, w =>
      (List.range wc).map (fun i => w + i) ++
        (if target ≤ w + wc then [] else collectIndices wc target fuel (w + wc))

/-- C7 counterexample: a request whose total float count exceeds the buffer
capacity (101 samples of 6 variables = 606 floats against a 50-sample,
12-variable buffer of 600 floats) is nevertheless ACCEPTED when its
requested rate is nonzero (here 1000), because the capacity pre-check of
`StartDataCollection` runs only in the `msg.rate == 0` branch.  This refutes
the claim that every over-capacity request is rejected. -/
theorem startDataCollection_overcapacity_accepted :
    (startDataCollection 50 0 1 true ⟨false, none, 0, 0, 0, 0⟩ ⟨0, 1000, 63, 101, 0, 0⟩).1
        = GCodeResult.ok ∧
      101 * countBits 63 > 50 * 12 := by
  constructor
  · rfl
  · decide

/-- C7 (amended): when the requested sample rate is 0, `StartDataCollection`
rejects, before any collection state is mutated, every request whose total
float count `numSamples * popcount(filter)` exceeds the sample-buffer
capacity `bufSize * 12`. -/
theorem startDataCollection_rate0_capacity (bufSize fullTune portTick : ℕ)
    (hasEncoder : Bool) (st : CollectionState) (msg : StartCollectionMsg)
    (hrate : msg.rate = 0)
    (hover : msg.numSamples * countBits msg.filter > bufSize * 12) :
    startDataCollection bufSize fullTune portTick hasEncoder st msg
      = (GCodeResult.error, st) := by
  have hc : 0 < countBits msg.filter := by
    rcases Nat.eq_zero_or_pos (countBits msg.filter) with h0 | h0
    · rw [h0, Nat.mul_zero] at hover; omega
    · exact h0
  have hdiv : bufSize * 12 / countBits msg.filter < msg.numSamples :=
    (Nat.div_lt_iff_lt_mul hc).2 hover
  unfold startDataCollection
  split_ifs with h1 h2 h3 h4
  · rfl
  · rfl
  · rfl
  · exact absurd ⟨hrate, hdiv⟩ h3
  · exact absurd ⟨hrate, hdiv⟩ h3

/-- Witness for the amended C7 at the boundary: with the 50-sample buffer, 6
selected variables and rate 0, a request for 101 samples (one float over
capacity) is rejected without mutating the collection state, while the
boundary-equal request for 100 samples (600 floats, exactly capacity) is
accepted. -/
theorem startDataCollection_rate0_capacity_witness :
    startDataCollection 50 0 1 true ⟨false, none, 0, 0, 0, 0⟩ ⟨0, 0, 63, 101, 0, 0⟩
        = (GCodeResult.error, ⟨false, none, 0, 0, 0, 0⟩) ∧
      (startDataCollection 50 0 1 true ⟨false, none, 0, 0, 0, 0⟩ ⟨0, 0, 63, 100, 0, 0⟩).1
        = GCodeResult.ok :=
  ⟨startDataCollection_rate0_capacity 50 0 1 true ⟨false, none, 0, 0, 0, 0⟩
      ⟨0, 0, 63, 101, 0, 0⟩ rfl (by decide),
   by rfl⟩

set_option maxRecDepth 40000 in
/-- C10 is refuted by the code: the request with nonzero rate 2000, 6
selected variables and 101 samples is accepted with no capacity check, its
tick conversion truncates `rateRequested` to 0 (`(1000.0/2000)/1 = 0.5`,
truncated to 0 — well-defined in C++), so `Spin` routes sampling through the
per-tick `CollectSample` path, and the run then writes buffer index 600 —
past the end of the 600-float (`50 * 12`) sample buffer. -/
theorem collectSample_buffer_overflow :
    (startDataCollection 50 0 1 true ⟨false, none, 0, 0, 0, 0⟩ ⟨0, 2000, 63, 101, 0, 0⟩).1
        = GCodeResult.ok ∧
      (startDataCollection 50 0 1 true ⟨false, none, 0, 0, 0, 0⟩ ⟨0, 2000, 63, 101, 0, 0⟩).2.rateRequested
        = some 0 ∧
      spinTakesSample
        (startDataCollection 50 0 1 true ⟨false, none, 0, 0, 0, 0⟩ ⟨0, 2000, 63, 101, 0, 0⟩).2
        = true ∧
      600 ∈ collectIndices (countBits 63) (101 * countBits 63) 101 0 ∧
      50 * 12 = 600 := by
  refine ⟨rfl, rfl, rfl, ?_, rfl⟩
  decide

/-! ### Ziegler-Nichols manoeuvre (ClosedLoop::TuningLoop, lines 955-1080)

The manoeuvre saves `Kp, Ki, Kd`, zeroes them (and `PIDITerm`), then
bisects on `Kp` over `[lowerBound, upperBound] = [0, 10000]` while
`upperBound - lowerBound > 100`.  Each bisection trial runs the control loop
for up to 16384 ticks against the physical plant; the plant's response is
external, so a trial is modelled against a position trace `pos : ℕ → ℚ`,
where `pos t` is `direction * currentMotorSteps` observed after the
`ControlMotorCurrents()` call of tick `t`, and `tgt` is the constant
`direction * targetMotorSteps` of that trial (`targetMotorSteps` is fixed
for the duration of a trial and `direction` is fixed after the flip on line
981).  After the loop, `ultimateGain = upperBound` and the saved gains are
written back (lines 1074-1077). -/

/-- The outcome of one bisection trial as seen by the outer loop: the trial
either executes `lowerBound = Kp` and breaks, executes `upperBound = Kp` and
breaks, or terminates after 16384 ticks leaving both bounds untouched. -/
inductive ZNOutcome where
  | setLower
  | setUpper
  | noUpdate
deriving DecidableEq

/-- The per-trial mutable variables of the Ziegler-Nichols inner loop
(lines 983-992). -/
structure ZNState where
  initialRiseTime : ℕ
  peakError : ℚ
  prevPeakError : ℚ
  prevTimestamp : ℕ
  oscillationCount : ℕ
  ewmaDecayFraction : ℚ
  ewmaOscillationPeriod : ℚ
deriving DecidableEq

/-- The initial per-trial state (all variables zeroed, lines 983-992). -/
def znInit : ZNState := ⟨0, 0, 0, 0, 0, 0, 0⟩

/-- The peak-processing block entered when the position has just crossed
below the target with a recorded positive peak (lines 1025-1043): update the
EWMA decay fraction (and, after more than five oscillations, the EWMA
oscillation period), then count the oscillation and roll the peak variables. -/
def znProcessPeak (t : ℕ) (s : ZNState) : ZNState :=
  let s1 :=
    if 0 < s.prevPeakError then
      let decayFraction := s.peakError / s.prevPeakError
      let e1 := if s.ewmaDecayFraction = 0 then decayFraction
                else (7 / 10) * s.ewmaDecayFraction + (3 / 10) * decayFraction
      let e2 := if 5 < s.oscillationCount then
                  (if s.ewmaOscillationPeriod = 0 then ((t : ℚ) - (s.prevTimestamp : ℚ))
                   else (3 / 10) * s.ewmaOscillationPeriod
                     + (7 / 10) * ((t : ℚ) - (s.prevTimestamp : ℚ)))
                else s.ewmaOscillationPeriod
      { s with ewmaDecayFraction := e1, ewmaOscillationPeriod := e2 }
    else s
  { s1 with
    oscillationCount := s1.oscillationCount + 1
    prevPeakError := s1.peakError
    peakError := 0
    prevTimestamp := t }

/-- The part of the trial body after the initial-rise-time bookkeeping
(lines 1014-1069): wait out three rise times, record peaks while above the
target, process a crossing, and then run the decision ladder — fewer than 5
oscillations `continue`s (skipping the timeout line!), a decayed ratio below
0.98 sets the lower bound and breaks, 10 or more oscillations set the upper
bound and break, and only a final tick that falls all the way through sets
the lower bound on timeout. -/
def znAfterRise (tgt cur err : ℚ) (t : ℕ) (s0 : ZNState) : ZNState ⊕ ZNOutcome :=
  if t < 3 * s0.initialRiseTime then Sum.inl s0
  else if tgt < cur then Sum.inl { s0 with peakError := max s0.peakError err }
  else
    let s1 := if 0 < s0.peakError then znProcessPeak t s0 else s0
    if s1.oscillationCount < 5 then Sum.inl s1
    else if s1.ewmaDecayFraction < 98 / 100 then Sum.inr ZNOutcome.setLower
    else if 10 ≤ s1.oscillationCount then Sum.inr ZNOutcome.setUpper
    else if t = 16383 then Sum.inr ZNOutcome.setLower
    else Sum.inl s1

/-- One iteration of the trial loop body (lines 995-1070) at tick `t`:
`Sum.inl` is a `continue` with the updated state, `Sum.inr` an outcome that
updates a bound (a `break`, or the timeout assignment on the last tick). -/
def znBody (pos : ℕ → ℚ) (tgt : ℚ) (t : ℕ) (s : ZNState) : ZNState ⊕ ZNOutcome :=
  let cur := pos t
  let err := |cur - tgt|
  if s.initialRiseTime = 0 ∧ ¬tgt < cur then Sum.inl s
  else
    znAfterRise tgt cur err t
      (if s.initialRiseTime = 0 then { s with initialRiseTime := t } else s)

/-- The trial loop `for (int time=0; time<16384; time++)` run from tick `t`
with `fuel` ticks remaining: exhausting the fuel is the natural loop exit
(reached only through `continue`s on the last ticks) and leaves both bounds
untouched. -/
def znTrialGo (pos : ℕ → ℚ) (tgt : ℚ) : ℕ → ℕ → ZNState → ZNOutcome
  | 0, _, _ => ZNOutcome.noUpdate
  | fuel + 1, t, s =>
      match znBody pos tgt t s with
      | Sum.inl s2 => znTrialGo pos tgt fuel (t + 1) s2
      | Sum.inr o => o

/-- One whole bisection trial (16384 ticks from the zeroed per-trial state). -/
def znTrial (pos : ℕ → ℚ) (tgt : ℚ) : ZNOutcome :=
  znTrialGo pos tgt 16384 0 znInit

/-- One unfolding step of the trial loop. -/
theorem znTrialGo_succ (pos : ℕ → ℚ) (tgt : ℚ) (fuel t : ℕ) (s : ZNState) :
    znTrialGo pos tgt (fuel + 1) t s
      = match znBody pos tgt t s with
        | Sum.inl s2 => znTrialGo pos tgt fuel (t + 1) s2
        | Sum.inr o => o := rfl

/-- The PID gains. -/
structure PIDGains where
  Kp : ℚ
  Ki : ℚ
  Kd : ℚ
deriving DecidableEq

/-- The bisection loop `while (upperBound - lowerBound > 100)` (lines
974-1072), with the candidate gain `Kp = lowerBound + (upperBound -
lowerBound) / 2` installed for each trial and the resulting bound update
applied.  The plant's reaction to a trial at candidate gain `kp` is
abstracted as `outcome kp` (every trial runs with a distinct `kp`, so this
loses no generality).  `fuel` bounds the number of iterations modelled:
`none` means the loop was still running when the fuel ran out. -/
def znOuterGo (outcome : ℚ → ZNOutcome) :
    ℕ → ℚ → ℚ → PIDGains → Option (ℚ × ℚ × PIDGains)
  | 0, l, u, g => if 100 < u - l then none else some (l, u, g)
  | fuel + 1, l, u, g =>
      if 100 < u - l then
        let kp := l + (u - l) / 2
        let g2 : PIDGains := ⟨kp, g.Ki, g.Kd⟩
        match outcome kp with
        | ZNOutcome.setLower => znOuterGo outcome fuel kp u g2
        | ZNOutcome.setUpper => znOuterGo outcome fuel l kp g2
        | ZNOutcome.noUpdate => znOuterGo outcome fuel l u g2
      else some (l, u, g)

/-- One unfolding step of the bisection loop. -/
theorem znOuterGo_succ (outcome : ℚ → ZNOutcome) (fuel : ℕ) (l u : ℚ) (g : PIDGains) :
    znOuterGo outcome (fuel + 1) l u g
      = if 100 < u - l then
          match outcome (l + (u - l) / 2) with
          | ZNOutcome.setLower =>
              znOuterGo outcome fuel (l + (u - l) / 2) u ⟨l + (u - l) / 2, g.Ki, g.Kd⟩
          | ZNOutcome.setUpper =>
              znOuterGo outcome fuel l (l + (u - l) / 2) ⟨l + (u - l) / 2, g.Ki, g.Kd⟩
          | ZNOutcome.noUpdate =>
              znOuterGo outcome fuel l u ⟨l + (u - l) / 2, g.Ki, g.Kd⟩
        else some (l, u, g) := rfl

/-- The whole Ziegler-Nichols manoeuvre (lines 955-1080): save the gains,
zero them, bisect from `[0, 10000]`, then set `ultimateGain = upperBound`
and restore the saved gains.  Returns the restored gains and the ultimate
gain, or `none` when the bisection loop has not finished within `fuel`
iterations. -/
def znManoeuvre (outcome : ℚ → ZNOutcome) (fuel : ℕ) (g : PIDGains) :
    Option (PIDGains × ℚ) :=
  let prevKp := g.Kp
  let prevKi := g.Ki
  let prevKd := g.Kd
  match znOuterGo outcome fuel 0 10000 ⟨0, 0, 0⟩ with
  | none => none
  | some r => some (⟨prevKp, prevKi, prevKd⟩, r.2.1)

/-- The steady state reached by the trial against a motionless plant
(`pos t = 0` for all `t`, target `-10`): the rise time is recorded as 1 (the
tick-0 assignment writes 0 and so stays "unset"), the peak error sticks at
10, and no oscillation is ever counted. -/
def znFlatState : ZNState := ⟨1, 10, 0, 0, 0, 0, 0⟩

/-- Against the motionless plant, every tick from `t = 2` on leaves
`znFlatState` unchanged via the record-peak `continue`, so the trial loop
runs out of ticks without ever reaching the bound-updating statements. -/
theorem znTrialGo_flat_stuck :
    ∀ fuel t, 2 ≤ t →
      znTrialGo (fun _ => (0 : ℚ)) (-10) fuel t znFlatState = ZNOutcome.noUpdate := by
  intro fuel
  induction fuel with
  | zero => intro t _; rfl
  | succ f ih =>
      intro t ht
      have habs : |(0 : ℚ) - (-10)| = 10 := by norm_num
      have hbody : znBody (fun _ => (0 : ℚ)) (-10) t znFlatState = Sum.inl znFlatState := by
        by_cases h3 : t < 3
        · simp [znBody, znAfterRise, znFlatState, h3]
        · simp [znBody, znAfterRise, znFlatState, h3, habs]
      rw [znTrialGo_succ, hbody]
      exact ih (t + 1) (by omega)

/-- C3 is refuted by the code: with a motionless plant (encoder reading
constantly 0, so the position trace is 0 and the direction-folded target is
-10), every bisection trial hits the 16384-tick cap through the
`oscillationCount < 5` (here: record-peak) `continue`, which skips the
timeout assignment `if (time == 16383) { lowerBound = Kp; }` — so the trial
leaves both bounds untouched, and the outer loop, whose interval stays
`[0, 10000]`, never narrows below the threshold 100 and never terminates
(it returns `none` for every fuel). -/
theorem zn_timeout_skips_bound_update :
    znTrial (fun _ => (0 : ℚ)) (-10) = ZNOutcome.noUpdate ∧
      ∀ fuel g, znOuterGo (fun _ => znTrial (fun _ => (0 : ℚ)) (-10)) fuel 0 10000 g = none := by
  have htrial : znTrial (fun _ => (0 : ℚ)) (-10) = ZNOutcome.noUpdate := by
    have hlt : (-10 : ℚ) < 0 := by norm_num
    have habs : |(0 : ℚ) - (-10)| = 10 := by norm_num
    have hmax : max (0 : ℚ) 10 = 10 := by norm_num
    have hb0 : znBody (fun _ => (0 : ℚ)) (-10) 0 znInit
        = Sum.inl ⟨0, 10, 0, 0, 0, 0, 0⟩ := by
      simp [znBody, znAfterRise, znInit, hlt, habs, hmax]
    have hb1 : znBody (fun _ => (0 : ℚ)) (-10) 1 ⟨0, 10, 0, 0, 0, 0, 0⟩
        = Sum.inl znFlatState := by
      simp [znBody, znAfterRise, znFlatState, hlt]
    unfold znTrial
    rw [show (16384 : ℕ) = 16383 + 1 from by norm_num, znTrialGo_succ, hb0]
    show znTrialGo (fun _ => (0 : ℚ)) (-10) 16383 1 ⟨0, 10, 0, 0, 0, 0, 0⟩ = ZNOutcome.noUpdate
    rw [show (16383 : ℕ) = 16382 + 1 from by norm_num, znTrialGo_succ, hb1]
    show znTrialGo (fun _ => (0 : ℚ)) (-10) 16382 2 znFlatState = ZNOutcome.noUpdate
    exact znTrialGo_flat_stuck 16382 2 (by norm_num)
  refine ⟨htrial, ?_⟩
  have hfun : (fun _ : ℚ => znTrial (fun _ => (0 : ℚ)) (-10))
      = fun _ : ℚ => ZNOutcome.noUpdate := funext fun _ => htrial
  rw [hfun]
  intro fuel
  induction fuel with
  | zero =>
      intro g
      show (if (100 : ℚ) < 10000 - 0 then (none : Option (ℚ × ℚ × PIDGains))
            else some (0, 10000, g)) = none
      rw [if_pos (show (100 : ℚ) < 10000 - 0 from by norm_num)]
  | succ f ih =>
      intro g
      have hcond : (100 : ℚ) < 10000 - 0 := by norm_num
      rw [znOuterGo_succ, if_pos hcond]
      exact ih _

/-- C4: whatever the plant does in each trial (`outcome` arbitrary) and
however the bisection search ends — oscillation found, not found, or every
trial timing out, for any number of iterations — if the Ziegler-Nichols
manoeuvre completes, the PID gains it returns are exactly the gains saved at
the start of the manoeuvre. -/
theorem zn_restores_gains (outcome : ℚ → ZNOutcome) (fuel : ℕ) (g : PIDGains)
    (r : PIDGains × ℚ) (h : znManoeuvre outcome fuel g = some r) : r.1 = g := by
  unfold znManoeuvre at h
  cases hzn : znOuterGo outcome fuel 0 10000 ⟨0, 0, 0⟩ with
  | none => rw [hzn] at h; exact absurd h (by simp)
  | some v =>
      rw [hzn] at h
      have : r = (⟨g.Kp, g.Ki, g.Kd⟩, v.2.1) := by
        simpa using h.symm
      rw [this]

/-- One bisection step against a plant that always sustains oscillation:
the upper bound moves to the midpoint. -/
theorem znOuter_setUpper_step (fuel : ℕ) (l u kp : ℚ) (g g2 : PIDGains)
    (h : 100 < u - l) (hkp : l + (u - l) / 2 = kp) (hg : g2 = ⟨kp, g.Ki, g.Kd⟩) :
    znOuterGo (fun _ => ZNOutcome.setUpper) (fuel + 1) l u g
      = znOuterGo (fun _ => ZNOutcome.setUpper) fuel l kp g2 := by
  subst hkp
  subst hg
  rw [znOuterGo_succ, if_pos h]

/-- Witness for C4 at a concrete input: a plant that always sustains
oscillation (every trial lowers the upper bound) finishes in 7 bisection
steps with ultimate gain 625/8, and the gains (100, 1/100, 10) are restored
exactly. -/
theorem zn_restores_gains_witness :
    ((⟨100, 1 / 100, 10⟩, 625 / 8) : PIDGains × ℚ).1 = (⟨100, 1 / 100, 10⟩ : PIDGains) := by
  have s1 : znOuterGo (fun _ => ZNOutcome.setUpper) 20 0 10000 ⟨0, 0, 0⟩
      = znOuterGo (fun _ => ZNOutcome.setUpper) 19 0 5000 ⟨5000, 0, 0⟩ :=
    znOuter_setUpper_step 19 0 10000 5000 ⟨0, 0, 0⟩ ⟨5000, 0, 0⟩ (by norm_num) (by norm_num) rfl
  have s2 : znOuterGo (fun _ => ZNOutcome.setUpper) 19 0 5000 ⟨5000, 0, 0⟩
      = znOuterGo (fun _ => ZNOutcome.setUpper) 18 0 2500 ⟨2500, 0, 0⟩ :=
    znOuter_setUpper_step 18 0 5000 2500 ⟨5000, 0, 0⟩ ⟨2500, 0, 0⟩ (by norm_num) (by norm_num) rfl
  have s3 : znOuterGo (fun _ => ZNOutcome.setUpper) 18 0 2500 ⟨2500, 0, 0⟩
      = znOuterGo (fun _ => ZNOutcome.setUpper) 17 0 1250 ⟨1250, 0, 0⟩ :=
    znOuter_setUpper_step 17 0 2500 1250 ⟨2500, 0, 0⟩ ⟨1250, 0, 0⟩ (by norm_num) (by norm_num) rfl
  have s4 : znOuterGo (fun _ => ZNOutcome.setUpper) 17 0 1250 ⟨1250, 0, 0⟩
      = znOuterGo (fun _ => ZNOutcome.setUpper) 16 0 625 ⟨625, 0, 0⟩ :=
    znOuter_setUpper_step 16 0 1250 625 ⟨1250, 0, 0⟩ ⟨625, 0, 0⟩ (by norm_num) (by norm_num) rfl
  have s5 : znOuterGo (fun _ => ZNOutcome.setUpper) 16 0 625 ⟨625, 0, 0⟩
      = znOuterGo (fun _ => ZNOutcome.setUpper) 15 0 (625 / 2) ⟨625 / 2, 0, 0⟩ :=
    znOuter_setUpper_step 15 0 625 (625 / 2) ⟨625, 0, 0⟩ ⟨625 / 2, 0, 0⟩
      (by norm_num) (by norm_num) rfl
  have s6 : znOuterGo (fun _ => ZNOutcome.setUpper) 15 0 (625 / 2) ⟨625 / 2, 0, 0⟩
      = znOuterGo (fun _ => ZNOutcome.setUpper) 14 0 (625 / 4) ⟨625 / 4, 0, 0⟩ :=
    znOuter_setUpper_step 14 0 (625 / 2) (625 / 4) ⟨625 / 2, 0, 0⟩ ⟨625 / 4, 0, 0⟩
      (by norm_num) (by norm_num) rfl
  have s7 : znOuterGo (fun _ => ZNOutcome.setUpper) 14 0 (625 / 4) ⟨625 / 4, 0, 0⟩
      = znOuterGo (fun _ => ZNOutcome.setUpper) 13 0 (625 / 8) ⟨625 / 8, 0, 0⟩ :=
    znOuter_setUpper_step 13 0 (625 / 4) (625 / 8) ⟨625 / 4, 0, 0⟩ ⟨625 / 8, 0, 0⟩
      (by norm_num) (by norm_num) rfl
  have s8 : znOuterGo (fun _ => ZNOutcome.setUpper) 13 0 (625 / 8) ⟨625 / 8, 0, 0⟩
      = some (0, 625 / 8, ⟨625 / 8, 0, 0⟩) := by
    rw [show (13 : ℕ) = 12 + 1 from rfl, znOuterGo_succ,
      if_neg (show ¬((100 : ℚ) < 625 / 8 - 0) from by norm_num)]
  have hrun : znManoeuvre (fun _ => ZNOutcome.setUpper) 20 ⟨100, 1 / 100, 10⟩
      = some (⟨100, 1 / 100, 10⟩, 625 / 8) := by
    unfold znManoeuvre
    rw [((((((s1.trans s2).trans s3).trans s4).trans s5).trans s6).trans s7).trans s8]
  exact zn_restores_gains (fun _ => ZNOutcome.setUpper) 20 ⟨100, 1 / 100, 10⟩
    (⟨100, 1 / 100, 10⟩, 625 / 8) hrun

/-! ### Sample buffer and telemetry transmission
(ClosedLoop::CollectSample, lines 573-604;
ClosedLoop::DataTransmissionLoop, lines 1140-1197)

`CollectSample` appends to the buffer one float per bit set in
`filterRequested`, in the fixed bit order 1, 2, 4, ..., 4096 over the 13
named variables.  `DataTransmissionLoop`, when not collecting and the buffer
is nonempty, counts the selected variables, computes the per-packet maximum
`maxSamplesInPacket = 14 / variableCount`, then repeatedly emits a packet
with `numSamples = min(samplesRemaining, maxSamplesInPacket)` samples copied
from the read pointer onwards (`lastPacket` set exactly when the remainder
fits), and finally resets both cursors to zero because collection has
stopped. -/

/-- The 13 recordable variables, in the canonical bit order of
`CollectSample` (values as recorded, i.e. already converted to float). -/
structure SampleVars where
  rawEncoderReading : ℚ
  currentMotorSteps : ℚ
  targetMotorSteps : ℚ
  stepPhase : ℚ
  PIDControlSignal : ℚ
  PIDPTerm : ℚ
  PIDITerm : ℚ
  PIDDTerm : ℚ
  phaseShift : ℚ
  desiredStepPhase : ℚ
  coilA : ℚ
  coilB : ℚ
  currentError : ℚ
deriving DecidableEq

/-- The floats one `CollectSample` call appends to the sample buffer
(lines 575-587): one per set bit of `filter` among bits 0..12, in bit order. -/
def collectSample (filter : ℕ) (v : SampleVars) : List ℚ :=
  (if filter.testBit 0 then [v.rawEncoderReading] else []) ++
  (if filter.testBit 1 then [v.currentMotorSteps] else []) ++
  (if filter.testBit 2 then [v.targetMotorSteps] else []) ++
  (if filter.testBit 3 then [v.stepPhase] else []) ++
  (if filter.testBit 4 then [v.PIDControlSignal] else []) ++
  (if filter.testBit 5 then [v.PIDPTerm] else []) ++
  (if filter.testBit 6 then [v.PIDITerm] else []) ++
  (if filter.testBit 7 then [v.PIDDTerm] else []) ++
  (if filter.testBit 8 then [v.phaseShift] else []) ++
  (if filter.testBit 9 then [v.desiredStepPhase] else []) ++
  (if filter.testBit 10 then [v.coilA] else []) ++
  (if filter.testBit 11 then [v.coilB] else []) ++
  (if filter.testBit 12 then [v.currentError] else [])

/-- One outbound `CanMessageClosedLoopData` packet as populated by
`DataTransmissionLoop` (lines 1164-1180). -/
structure ClosedLoopDataPacket where
  firstSampleNumber : ℕ
  filter : ℕ
  lastPacket : Bool
  payload : List ℚ

/-- The drain loop `while (sampleBufferReadPointer < sampleBufferWritePointer)`
(lines 1162-1185), acting on the unread suffix `rem` of the buffer:
`samplesRemaining = (write - read) / variableCount`,
`lastPacket = samplesRemaining <= maxSamplesInPacket`,
`numSamples = lastPacket ? samplesRemaining : maxSamplesInPacket`, and
`numSamples * variableCount` floats are copied out in order while the read
pointer advances.  `fuel` bounds the number of packets (the remaining length
suffices). -/
def drainGo (vc maxS filter : ℕ) : ℕ → ℕ → List ℚ → List ClosedLoopDataPacket
  | 0, _, _ => []
  | fuel + 1, readPtr, rem =>
      if rem = [] then []
      else
        let samplesRemaining := rem.length / vc
        let n := if samplesRemaining ≤ maxS then samplesRemaining else maxS
        ⟨readPtr / vc, filter, decide (samplesRemaining ≤ maxS), rem.take (n * vc)⟩ ::
          drainGo vc maxS filter fuel (readPtr + n * vc) (rem.drop (n * vc))

/-- One pass of `DataTransmissionLoop`'s body (lines 1146-1193): transmit
only when not collecting and the buffer is nonempty
(`!collectingData && sampleBufferWritePointer > 0`), draining from the read
pointer to the write pointer and then resetting both cursors to zero (the
reset is guarded by `!collectingData`, which holds throughout the pass);
otherwise leave the packets, cursors and buffer untouched.  The buffer is
modelled as the list of floats written so far, so the write pointer is its
length. -/
def dataTransmissionPass (collecting : Bool) (filter readPtr : ℕ) (buf : List ℚ) :
    List ClosedLoopDataPacket × ℕ × ℕ :=
  if collecting = false ∧ buf.length ≠ 0 then
    let vc := countBits filter
    let maxS := 14 / vc
    (drainGo vc maxS filter (buf.drop readPtr).length readPtr (buf.drop readPtr), 0, 0)
  else ([], readPtr, buf.length)

/-- The shape C9 requires of a drained packet list: every packet except the
final one is full (`maxS` samples of `vc` floats) and not flagged last,
while the final packet carries the `lastPacket` flag. -/
def goodFlags (maxS vc : ℕ) : List ClosedLoopDataPacket → Prop
  | [] => True
  | [p] => p.lastPacket = true
  | p :: q :: rest =>
      p.lastPacket = false ∧ p.payload.length = maxS * vc ∧ goodFlags maxS vc (q :: rest)

/-- A nonzero filter selects at least one variable. -/
theorem countBits_pos (n : ℕ) (h : n ≠ 0) : 0 < countBits n := by
  induction n using Nat.strong_induction_on with
  | _ n ih =>
      rw [countBits_step]
      rcases Nat.mod_two_eq_zero_or_one n with he | ho
      · have h2 : n / 2 ≠ 0 := by omega
        have := ih (n / 2) (by omega) h2
        omega
      · omega

/-- A filter below `2^k` selects at most `k` variables. -/
theorem countBits_le (k : ℕ) : ∀ n, n < 2 ^ k → countBits n ≤ k := by
  induction k with
  | zero =>
      intro n hn
      have : n = 0 := by omega
      subst this
      simp [countBits, countBitsGo]
  | succ k ih =>
      intro n hn
      have hhalf : n / 2 < 2 ^ k := by
        rw [Nat.div_lt_iff_lt_mul (by norm_num)]
        calc n < 2 ^ (k + 1) := hn
        _ = 2 ^ k * 2 := by rw [pow_succ]
      have h1 := ih (n / 2) hhalf
      have h2 : n % 2 ≤ 1 := by omega
      rw [countBits_step]
      omega

/-- The length of the ``if`` fragments making up one sample. -/
theorem list_ite_length (c : Prop) [Decidable c] (x : ℚ) :
    (if c then [x] else []).length = if c then 1 else 0 := by
  split_ifs <;> rfl

/-- Converting a tested bit to arithmetic. -/
theorem testBit_ite (f k : ℕ) :
    (if f.testBit k then (1 : ℕ) else 0) = f / 2 ^ k % 2 := by
  rw [Nat.testBit_to_div_mod]
  rcases Nat.mod_two_eq_zero_or_one (f / 2 ^ k) with h | h <;> simp [h]

set_option maxHeartbeats 2000000 in
/-- Each `CollectSample` call writes exactly `variableCount` floats, where
`variableCount` is the bit count the code computes — provided the filter
stays within the 13 defined variable bits (bits 13-15 of the `uint16_t`
filter would be counted by `variableCount` but never written). -/
theorem collectSample_length (filter : ℕ) (v : SampleVars) (hf : filter < 8192) :
    (collectSample filter v).length = countBits filter := by
  rw [countBits_step filter,
    countBits_step (filter / 2),
    countBits_step (filter / 2 / 2),
    countBits_step (filter / 2 / 2 / 2),
    countBits_step (filter / 2 / 2 / 2 / 2),
    countBits_step (filter / 2 / 2 / 2 / 2 / 2),
    countBits_step (filter / 2 / 2 / 2 / 2 / 2 / 2),
    countBits_step (filter / 2 / 2 / 2 / 2 / 2 / 2 / 2),
    countBits_step (filter / 2 / 2 / 2 / 2 / 2 / 2 / 2 / 2),
    countBits_step (filter / 2 / 2 / 2 / 2 / 2 / 2 / 2 / 2 / 2),
    countBits_step (filter / 2 / 2 / 2 / 2 / 2 / 2 / 2 / 2 / 2 / 2),
    countBits_step (filter / 2 / 2 / 2 / 2 / 2 / 2 / 2 / 2 / 2 / 2 / 2),
    countBits_step (filter / 2 / 2 / 2 / 2 / 2 / 2 / 2 / 2 / 2 / 2 / 2 / 2)]
  have hz : filter / 2 / 2 / 2 / 2 / 2 / 2 / 2 / 2 / 2 / 2 / 2 / 2 / 2 = 0 := by omega
  rw [hz]
  have h0 : countBits 0 = 0 := rfl
  rw [h0]
  simp only [collectSample, List.length_append, list_ite_length, testBit_ite,
    Nat.div_div_eq_div_mul]
  norm_num
  ring

/-- One unfolding step of the drain loop. -/
theorem drainGo_succ (vc maxS filter fuel readPtr : ℕ) (rem : List ℚ) :
    drainGo vc maxS filter (fuel + 1) readPtr rem
      = if rem = [] then []
        else
          ⟨readPtr / vc, filter, decide (rem.length / vc ≤ maxS),
            rem.take ((if rem.length / vc ≤ maxS then rem.length / vc else maxS) * vc)⟩ ::
            drainGo vc maxS filter fuel
              (readPtr + (if rem.length / vc ≤ maxS then rem.length / vc else maxS) * vc)
              (rem.drop ((if rem.length / vc ≤ maxS then rem.length / vc else maxS) * vc)) := rfl

/-- The drain loop produces nothing from an empty remainder. -/
theorem drainGo_nil (vc maxS filter fuel readPtr : ℕ) :
    drainGo vc maxS filter fuel readPtr [] = [] := by
  cases fuel with
  | zero => rfl
  | succ f => rw [drainGo_succ, if_pos rfl]

/-- The drain loop produces at least one packet from a nonempty remainder. -/
theorem drainGo_ne_nil (vc maxS filter fuel readPtr : ℕ) (rem : List ℚ)
    (hrem : rem ≠ []) (hfuel : 1 ≤ fuel) :
    drainGo vc maxS filter fuel readPtr rem ≠ [] := by
  obtain ⟨f, rfl⟩ : ∃ f, fuel = f + 1 := ⟨fuel - 1, by omega⟩
  rw [drainGo_succ, if_neg hrem]
  simp

/-- FIFO completeness of the drain loop: when the remaining length is a
multiple of the variable count (which `CollectSample` guarantees), the
concatenation of the emitted packets' payloads is exactly the remaining
buffer contents, in order, with no duplication or gap. -/
theorem drainGo_flatten (vc maxS filter : ℕ) (hvc : 0 < vc) (hmax : 0 < maxS) :
    ∀ fuel readPtr rem, rem.length ≤ fuel → vc ∣ rem.length →
      ((drainGo vc maxS filter fuel readPtr rem).map
        ClosedLoopDataPacket.payload).flatten = rem := by
  intro fuel
  induction fuel with
  | zero =>
      intro readPtr rem hlen _
      have : rem = [] := List.eq_nil_of_length_eq_zero (by omega)
      subst this
      rfl
  | succ f ih =>
      intro readPtr rem hlen hdvd
      by_cases hrem : rem = []
      · subst hrem
        rw [drainGo_nil]
        rfl
      · rw [drainGo_succ, if_neg hrem]
        have hLpos : 0 < rem.length := List.length_pos.2 hrem
        by_cases hle : rem.length / vc ≤ maxS
        · have hk : rem.length / vc * vc = rem.length := Nat.div_mul_cancel hdvd
          rw [if_pos hle, List.map_cons, List.flatten_cons, hk, List.take_length,
            List.drop_length, drainGo_nil]
          simp
        · have hklt : maxS * vc < rem.length := by
            have h1 : maxS < rem.length / vc := lt_of_not_ge hle
            calc maxS * vc < rem.length / vc * vc := (Nat.mul_lt_mul_right hvc).2 h1
            _ = rem.length := Nat.div_mul_cancel hdvd
          rw [if_neg hle, List.map_cons, List.flatten_cons]
          have hdroplen : (rem.drop (maxS * vc)).length = rem.length - maxS * vc :=
            List.length_drop _ _
          have hepos : 0 < maxS * vc := Nat.mul_pos hmax hvc
          have hrec := ih (readPtr + maxS * vc) (rem.drop (maxS * vc))
            (by rw [hdroplen]; omega)
            (by rw [hdroplen]; exact Nat.dvd_sub' hdvd (dvd_mul_left vc maxS))
          rw [hrec, List.take_append_drop]

/-- Packet-shape correctness of the drain loop: every packet but the final
one is a full packet of `maxSamplesInPacket` samples with `lastPacket`
false, and the final packet has `lastPacket` set. -/
theorem drainGo_flags (vc maxS filter : ℕ) (hvc : 0 < vc) (hmax : 0 < maxS) :
    ∀ fuel readPtr rem, rem.length ≤ fuel → vc ∣ rem.length →
      goodFlags maxS vc (drainGo vc maxS filter fuel readPtr rem) := by
  intro fuel
  induction fuel with
  | zero =>
      intro readPtr rem hlen _
      have : rem = [] := List.eq_nil_of_length_eq_zero (by omega)
      subst this
      trivial
  | succ f ih =>
      intro readPtr rem hlen hdvd
      by_cases hrem : rem = []
      · subst hrem
        rw [drainGo_nil]
        trivial
      · rw [drainGo_succ, if_neg hrem]
        have hLpos : 0 < rem.length := List.length_pos.2 hrem
        by_cases hle : rem.length / vc ≤ maxS
        · have hk : rem.length / vc * vc = rem.length := Nat.div_mul_cancel hdvd
          rw [if_pos hle, hk, List.drop_length, drainGo_nil]
          simp [goodFlags, hle]
        · have hklt : maxS * vc < rem.length := by
            have h1 : maxS < rem.length / vc := lt_of_not_ge hle
            calc maxS * vc < rem.length / vc * vc := (Nat.mul_lt_mul_right hvc).2 h1
            _ = rem.length := Nat.div_mul_cancel hdvd
          rw [if_neg hle]
          have hdroplen : (rem.drop (maxS * vc)).length = rem.length - maxS * vc :=
            List.length_drop _ _
          have hepos : 0 < maxS * vc := Nat.mul_pos hmax hvc
          have hdropne : rem.drop (maxS * vc) ≠ [] := by
            intro hcontra
            have := congrArg List.length hcontra
            rw [hdroplen] at this
            simp at this
            omega
          have hrec := ih (readPtr + maxS * vc) (rem.drop (maxS * vc))
            (by rw [hdroplen]; omega)
            (by rw [hdroplen]; exact Nat.dvd_sub' hdvd (dvd_mul_left vc maxS))
          have hfone : 1 ≤ f := by
            have h1 : 1 ≤ (rem.drop (maxS * vc)).length := by
              rw [hdroplen]; omega
            have h2 : (rem.drop (maxS * vc)).length ≤ f := by
              rw [hdroplen]; omega
            omega
          have hrecne := drainGo_ne_nil vc maxS filter f (readPtr + maxS * vc)
            (rem.drop (maxS * vc)) hdropne hfone
          rcases hx : drainGo vc maxS filter f (readPtr + maxS * vc)
              (rem.drop (maxS * vc)) with _ | ⟨q, rest⟩
          · exact absurd hx hrecne
          · rw [hx] at hrec
            refine ⟨by simp [hle], ?_, hrec⟩
            rw [List.length_take]
            omega

/-- C9: for a completed collection-then-transmission cycle (collection has
stopped; the buffer holds the samples written by `CollectSample`, one group
of `popcount(filter)` floats per sample, the filter selecting at least one
of the 13 defined variables), `DataTransmissionLoop` drains the buffer
strictly in FIFO order: the concatenation of all transmitted packets'
payloads equals the sequence of floats written during acquisition, in order,
with no duplication or gap; each non-final packet carries as many complete
samples as fit under the per-packet maximum `14 / popcount(filter)` and the
final packet of the batch has its `lastPacket` flag set; both buffer cursors
are reset to zero at the end of the pass, and a pass while collection is
still active transmits nothing and leaves the cursors alone. -/
theorem data_transmission_fifo (filter : ℕ) (samples : List SampleVars)
    (hf : filter < 8192) (hf0 : filter ≠ 0) (hs : samples ≠ []) :
    ((dataTransmissionPass false filter 0
          ((samples.map (collectSample filter)).flatten)).1.map
        ClosedLoopDataPacket.payload).flatten
        = (samples.map (collectSample filter)).flatten ∧
      goodFlags (14 / countBits filter) (countBits filter)
        (dataTransmissionPass false filter 0
          ((samples.map (collectSample filter)).flatten)).1 ∧
      (dataTransmissionPass false filter 0
          ((samples.map (collectSample filter)).flatten)).1 ≠ [] ∧
      (dataTransmissionPass false filter 0
          ((samples.map (collectSample filter)).flatten)).2 = (0, 0) ∧
      (∀ r b, dataTransmissionPass true filter r b = ([], r, b.length)) := by
  have hvc : 0 < countBits filter := countBits_pos filter hf0
  have hvc13 : countBits filter ≤ 13 := countBits_le 13 filter (by simpa using hf)
  have hmax : 0 < 14 / countBits filter := Nat.div_pos (by omega) hvc
  have hlen : ((samples.map (collectSample filter)).flatten).length
      = samples.length * countBits filter := by
    rw [List.length_flatten, List.map_map]
    have hmapeq : samples.map (List.length ∘ collectSample filter)
        = samples.map (fun _ => countBits filter) := by
      apply List.map_congr_left
      intro v _
      exact collectSample_length filter v hf
    rw [hmapeq, List.map_const', List.sum_replicate, smul_eq_mul ℕ]
  have hdvd : countBits filter ∣ ((samples.map (collectSample filter)).flatten).length := by
    rw [hlen]
    exact dvd_mul_left _ _
  have hslen : 0 < samples.length := List.length_pos.2 hs
  have hbufpos : 0 < ((samples.map (collectSample filter)).flatten).length := by
    rw [hlen]
    exact Nat.mul_pos hslen hvc
  have hbufne : (samples.map (collectSample filter)).flatten ≠ [] := by
    intro hcontra
    rw [hcontra] at hbufpos
    simp at hbufpos
  have hcond : (false = false ∧
      ((samples.map (collectSample filter)).flatten).length ≠ 0) := ⟨rfl, by omega⟩
  have hpass : dataTransmissionPass false filter 0 ((samples.map (collectSample filter)).flatten)
      = (drainGo (countBits filter) (14 / countBits filter) filter
          ((samples.map (collectSample filter)).flatten).length 0
          ((samples.map (collectSample filter)).flatten), 0, 0) := by
    unfold dataTransmissionPass
    rw [if_pos hcond, List.drop_zero]
  rw [hpass]
  refine ⟨?_, ?_, ?_, rfl, ?_⟩
  · exact drainGo_flatten (countBits filter) (14 / countBits filter) filter hvc hmax
      _ 0 _ (le_refl _) hdvd
  · exact drainGo_flags (countBits filter) (14 / countBits filter) filter hvc hmax
      _ 0 _ (le_refl _) hdvd
  · exact drainGo_ne_nil (countBits filter) (14 / countBits filter) filter
      _ 0 _ hbufne (by omega)
  · intro r b
    unfold dataTransmissionPass
    rw [if_neg (by simp)]

/-- Witness for C9 at a concrete input: two samples of the two variables
selected by filter 3 (raw reading and current steps); the cycle produces a
single final packet whose payload is the four written floats in order, and
the cursors are reset. -/
theorem data_transmission_fifo_witness :
    ((dataTransmissionPass false 3 0
          (([⟨1, 2, 3, 4, 5, 6, 7, 8, 9, 10, 11, 12, 13⟩,
             ⟨21, 22, 23, 24, 25, 26, 27, 28, 29, 30, 31, 32, 33⟩].map
            (collectSample 3)).flatten)).1.map ClosedLoopDataPacket.payload).flatten
        = (([⟨1, 2, 3, 4, 5, 6, 7, 8, 9, 10, 11, 12, 13⟩,
             ⟨21, 22, 23, 24, 25, 26, 27, 28, 29, 30, 31, 32, 33⟩].map
            (collectSample 3)).flatten : List ℚ) ∧
      goodFlags (14 / countBits 3) (countBits 3)
        (dataTransmissionPass false 3 0
          (([⟨1, 2, 3, 4, 5, 6, 7, 8, 9, 10, 11, 12, 13⟩,
             ⟨21, 22, 23, 24, 25, 26, 27, 28, 29, 30, 31, 32, 33⟩].map
            (collectSample 3)).flatten)).1 ∧
      (dataTransmissionPass false 3 0
          (([⟨1, 2, 3, 4, 5, 6, 7, 8, 9, 10, 11, 12, 13⟩,
             ⟨21, 22, 23, 24, 25, 26, 27, 28, 29, 30, 31, 32, 33⟩].map
            (collectSample 3)).flatten)).1 ≠ [] ∧
      (dataTransmissionPass false 3 0
          (([⟨1, 2, 3, 4, 5, 6, 7, 8, 9, 10, 11, 12, 13⟩,
             ⟨21, 22, 23, 24, 25, 26, 27, 28, 29, 30, 31, 32, 33⟩].map
            (collectSample 3)).flatten)).2 = (0, 0) ∧
      (∀ r b, dataTransmissionPass true 3 r b = ([], r, b.length)) :=
  data_transmission_fifo 3
    [⟨1, 2, 3, 4, 5, 6, 7, 8, 9, 10, 11, 12, 13⟩,
     ⟨21, 22, 23, 24, 25, 26, 27, 28, 29, 30, 31, 32, 33⟩]
    (by norm_num) (by norm_num) (by simp)

end ClosedLoop
